import Mathlib

/-!
Verification of the language-routing and i18n logic of the bentopdf repository.

JavaScript strings are modelled as `List Char`; the Vite middleware
`createLanguageMiddleware` (vitest config), the browser-side i18n helpers
(`changeLanguage`, `rewriteLinks`) and the tool-page `handleFiles` are embedded
as pure Lean functions over that representation.  Request-level effects
(rewriting `req.url`, sending a 302, calling `next()`) are reified as an
`Outcome` value; filesystem probes (`fs.existsSync`) are an oracle
`fsx : Str → Bool` keyed by the probed relative path.
-/

set_option maxRecDepth 40000

/-- JavaScript strings, modelled as lists of characters. -/
abbrev Str := List Char

/-- Characters matched by an unflagged JavaScript regex dot `.`: every
character except the line terminators LF, CR, U+2028 and U+2029. -/
def jsDotOk (c : Char) : Bool :=
  c ≠ '\n' && c ≠ '\r' && c ≠ '\u2028' && c ≠ '\u2029'

/-- JS `s.replace(/c$/, '')` for a single character `c`: strips one trailing `c`. -/
def stripTrailing (c : Char) (s : Str) : Str :=
  if s.getLast? = some c then s.dropLast else s

/-- JS `s.replace(/suf$/, '')` for a literal suffix: strips one occurrence of
`suf` at the end of `s`, if present. -/
def stripSuffixOnce (suf s : Str) : Str :=
  if suf.isSuffixOf s then s.take (s.length - suf.length) else s

/-- JS `s.replace(pat, '')` with a plain-string pattern: removes the first
occurrence of `pat` from `s` (JS string `replace` only replaces the first hit). -/
def removeFirst (pat : Str) : Str → Str
  | [] => []
  | c :: rest =>
    if pat.isPrefixOf (c :: rest) then (c :: rest).drop pat.length
    else c :: removeFirst pat rest

/-- JS `url.split('?')[0]`: the part of the URL before the first `?`. -/
def fullPathname (url : Str) : Str := url.takeWhile (fun c => c ≠ '?')

/-- JS `url.split('?')[1]`: the part between the first and the second `?`
(`[]` both when there is no `?` — JS `undefined` — and when it is empty;
the middleware only uses the value through its truthiness, where both agree). -/
def queryPart (url : Str) : Str :=
  ((url.dropWhile (fun c => c ≠ '?')).drop 1).takeWhile (fun c => c ≠ '?')

/-- The query suffix every branch of the middleware re-attaches:
`queryString ? '?' + queryString : ''`. -/
def qsSuffix (url : Str) : Str :=
  if queryPart url = [] then [] else '?' :: queryPart url

/-- `getBasePath()`: `(process.env.BASE_URL || '/').replace(/\/$/, '')`.
`baseUrl` is the BASE_URL environment variable, `[]` standing for unset/empty
(both are falsy in JS). -/
def getBasePath (baseUrl : Str) : Str :=
  stripTrailing '/' (if baseUrl = [] then ['/'] else baseUrl)

/-- The server-side language whitelist `SUPPORTED_LANGUAGES` of the vitest
config, in source order (the order of the `LANG_REGEX` alternation). -/
def SUPPORTED_LANGUAGES : List Str :=
  ["en".toList, "de".toList, "es".toList, "zh".toList, "zh-TW".toList,
   "vi".toList, "it".toList, "id".toList, "tr".toList, "fr".toList, "pt".toList]

/-- One alternative of `LANG_REGEX = ^/(l₁|l₂|...)(?:/(.*))?$`, tried at `lang`:
JS regex semantics make the alternative succeed iff the path is exactly
`/lang` (inner group undefined, modelled `some none`), or the path is
`/lang/r` where `r` contains no line terminator (`.` does not match those),
giving `some (some r)`.  A remainder containing a line terminator defeats the
whole alternative because `(.*)` cannot reach the `$` anchor. -/
def matchAlt (lang path : Str) : Option (Option Str) :=
  if path = '/' :: lang then some none
  else if ('/' :: lang ++ ['/']).isPrefixOf path then
    (if (path.drop (lang.length + 2)).all jsDotOk then
      some (some (path.drop (lang.length + 2)))
    else none)
  else none

/-- JS alternation: the first alternative (in list order) that matches wins. -/
def langMatchAux : List Str → Str → Option (Str × Option Str)
  | [], _ => none
  | lang :: rest, path =>
    match matchAlt lang path with
    | some r => some (lang, r)
    | none => langMatchAux rest path

/-- `pathname.match(LANG_REGEX)`: `some (lang, some rest)` when group 2
matched, `some (lang, none)` when the path is exactly `/lang`, `none` when the
regex does not match. -/
def langMatch (path : Str) : Option (Str × Option Str) :=
  langMatchAux SUPPORTED_LANGUAGES path

/-- The hardcoded `rootPages` list of `loadPages()`. -/
def rootPages : List Str :=
  ["index".toList, "about".toList, "contact".toList, "faq".toList,
   "privacy".toList, "terms".toList, "licensing".toList, "tools".toList,
   "404".toList, "pdf-converter".toList, "pdf-editor".toList,
   "pdf-security".toList, "pdf-merge-split".toList]

/-- The tool pages under `src/pages/`.  `loadPages()` obtains these by scanning
the `src/pages` directory (whose listing is not part of the reviewed sources);
the set is instantiated from the exhaustive `src/pages/*.html` build inputs
enumerated in the same config file. -/
def toolPages : List Str :=
  ["bookmark".toList, "table-of-contents".toList, "pdf-to-json".toList,
   "json-to-pdf".toList, "pdf-multi-tool".toList, "add-stamps".toList,
   "form-creator".toList, "repair-pdf".toList, "merge-pdf".toList,
   "split-pdf".toList, "compress-pdf".toList, "edit-pdf".toList,
   "jpg-to-pdf".toList, "sign-pdf".toList, "crop-pdf".toList,
   "extract-pages".toList, "delete-pages".toList, "organize-pdf".toList,
   "page-numbers".toList, "add-watermark".toList, "header-footer".toList,
   "invert-colors".toList, "background-color".toList, "text-color".toList,
   "remove-annotations".toList, "remove-blank-pages".toList,
   "image-to-pdf".toList, "png-to-pdf".toList, "webp-to-pdf".toList,
   "svg-to-pdf".toList, "form-filler".toList, "reverse-pages".toList,
   "add-blank-page".toList, "divide-pages".toList, "rotate-pdf".toList,
   "rotate-custom".toList, "n-up-pdf".toList, "combine-single-page".toList,
   "view-metadata".toList, "edit-metadata".toList, "pdf-to-zip".toList,
   "alternate-merge".toList, "compare-pdfs".toList, "add-attachments".toList,
   "edit-attachments".toList, "extract-attachments".toList, "ocr-pdf".toList,
   "posterize-pdf".toList, "fix-page-size".toList, "remove-metadata".toList,
   "decrypt-pdf".toList, "flatten-pdf".toList, "encrypt-pdf".toList,
   "linearize-pdf".toList, "remove-restrictions".toList,
   "change-permissions".toList, "sanitize-pdf".toList,
   "page-dimensions".toList, "bmp-to-pdf".toList, "heic-to-pdf".toList,
   "tiff-to-pdf".toList, "txt-to-pdf".toList, "markdown-to-pdf".toList,
   "pdf-to-bmp".toList, "pdf-to-greyscale".toList, "pdf-to-jpg".toList,
   "pdf-to-png".toList, "pdf-to-tiff".toList, "pdf-to-webp".toList,
   "pdf-to-docx".toList, "extract-images".toList, "pdf-to-markdown".toList,
   "rasterize-pdf".toList, "prepare-pdf-for-ai".toList, "pdf-layers".toList,
   "pdf-to-pdfa".toList, "odt-to-pdf".toList, "csv-to-pdf".toList,
   "rtf-to-pdf".toList, "word-to-pdf".toList, "excel-to-pdf".toList,
   "powerpoint-to-pdf".toList, "pdf-booklet".toList, "xps-to-pdf".toList,
   "mobi-to-pdf".toList, "epub-to-pdf".toList, "fb2-to-pdf".toList,
   "cbz-to-pdf".toList, "wpd-to-pdf".toList, "wps-to-pdf".toList,
   "xml-to-pdf".toList, "pages-to-pdf".toList, "odg-to-pdf".toList,
   "ods-to-pdf".toList, "odp-to-pdf".toList, "pub-to-pdf".toList,
   "vsd-to-pdf".toList, "psd-to-pdf".toList, "pdf-to-svg".toList,
   "extract-tables".toList, "pdf-to-csv".toList, "pdf-to-excel".toList,
   "pdf-to-text".toList, "pdf-to-fb2".toList, "digital-sign-pdf".toList,
   "validate-signature-pdf".toList, "email-to-pdf".toList,
   "font-to-outline".toList, "deskew-pdf".toList]

/-- The page-name set `PAGES = loadPages()`: scanned tool pages plus the
hardcoded root pages (as a list; `loadPages` builds a JS `Set`, used only
through membership). -/
def PAGES : List Str := rootPages ++ toolPages

/-- Relative path probed by `fs.existsSync(resolve(__dirname, 'dist', lang, file))`. -/
def distFile (lang file : Str) : Str := "dist/".toList ++ lang ++ '/' :: file

/-- Relative path probed by `fs.existsSync(resolve(__dirname, 'src/pages', file))`. -/
def srcPagesFile (file : Str) : Str := "src/pages/".toList ++ file

/-- Result of one middleware invocation: a 302 redirect with the given
`Location`, a call to `next()` after assigning `req.url` the given value, or a
call to `next()` with `req.url` left completely untouched. -/
inductive Outcome where
  | redirect (location : Str)
  | rewrite (url : Str)
  | pass
deriving DecidableEq, Repr

/-- `rest.replace(/\/$/, '').replace(/\.html$/, '')` — the cleaned sub-path. -/
def cleanPathOf (rest : Str) : Str :=
  stripSuffixOnce ".html".toList (stripTrailing '/' rest)

/-- `cleanPath.split('/')[0]` — the candidate page name. -/
def pageNameOf (clean : Str) : Str := clean.takeWhile (fun c => c ≠ '/')

/-- The dev-only fallback of the middleware when no language prefix matched:
rewrite `/<page>.html` to its source file under `/src/pages/` when the name is
a known page, the path is not already under `/src/`, and the source file
exists; in every other case pass through unchanged. -/
def devHtmlFallback (isDev : Bool) (pages : List Str) (fsx : Str → Bool)
    (pathname qs : Str) : Outcome :=
  if isDev ∧ ".html".toList.isSuffixOf pathname ∧
      ¬ "/src/".toList.isPrefixOf pathname then
    let pageName := removeFirst ".html".toList (pathname.drop 1)
    if pages.contains pageName then
      if fsx (srcPagesFile (pageName ++ ".html".toList)) then
        Outcome.rewrite ("/src/pages/".toList ++ pageName ++ ".html".toList ++ qs)
      else Outcome.pass
    else Outcome.pass
  else Outcome.pass

/-- The routing decision of `createLanguageMiddleware` on the normalized
pathname, with the query suffix `qs` already parsed out of the raw URL. -/
def routeResolve (isDev : Bool) (basePath : Str) (pages : List Str)
    (fsx : Str → Bool) (pathname qs : Str) : Outcome :=
  match langMatch pathname with
  | some (lang, restOpt) =>
    let rest := restOpt.getD []
    if rest = [] ∧ ¬ pathname.getLast? = some '/' then
      Outcome.redirect
        ((if basePath ≠ [] then basePath ++ '/' :: (lang ++ ['/'])
          else '/' :: (lang ++ ['/'])) ++ qs)
    else if rest = [] ∨ rest = ['/'] then
      if isDev then Outcome.rewrite ("/index.html".toList ++ qs)
      else if fsx (distFile lang "index.html".toList) then
        Outcome.rewrite ('/' :: (lang ++ "/index.html".toList) ++ qs)
      else Outcome.rewrite ("/index.html".toList ++ qs)
    else
      let cleanPath := cleanPathOf rest
      let pageName := pageNameOf cleanPath
      if pageName ≠ [] ∧ pages.contains pageName then
        if isDev then
          if fsx (srcPagesFile (pageName ++ ".html".toList)) then
            Outcome.rewrite ("/src/pages/".toList ++ pageName ++ ".html".toList ++ qs)
          else Outcome.rewrite ('/' :: (pageName ++ ".html".toList) ++ qs)
        else
          if fsx (distFile lang (pageName ++ ".html".toList)) then
            Outcome.rewrite ('/' :: (lang ++ '/' :: (pageName ++ ".html".toList)) ++ qs)
          else Outcome.rewrite ('/' :: (pageName ++ ".html".toList) ++ qs)
      else if ¬ cleanPath.contains '.' then
        if isDev then Outcome.rewrite ('/' :: (cleanPath ++ ".html".toList) ++ qs)
        else if fsx (distFile lang (cleanPath ++ ".html".toList)) then
          Outcome.rewrite ('/' :: (lang ++ '/' :: (cleanPath ++ ".html".toList)) ++ qs)
        else Outcome.rewrite ('/' :: (cleanPath ++ ".html".toList) ++ qs)
      else Outcome.pass
  | none => devHtmlFallback isDev pages fsx pathname qs

/-- Base-path stripping and leading-slash normalization of the middleware:
strip the configured base path when non-empty, not `/`, and actually a prefix
(an emptied path becomes `/`), then guarantee a leading slash. -/
def normalizePathname (basePath fp : Str) : Str :=
  let stripped :=
    if basePath ≠ [] ∧ basePath ≠ ['/'] ∧ basePath.isPrefixOf fp then
      (if fp.drop basePath.length = [] then ['/'] else fp.drop basePath.length)
    else fp
  if ['/'].isPrefixOf stripped then stripped else '/' :: stripped

/-- `createLanguageMiddleware(isDev)` applied to a request with raw URL `url`
under BASE_URL `baseUrl`, page set `pages` and filesystem oracle `fsx`.
A falsy (empty) `req.url` passes straight through. -/
def createLanguageMiddleware (isDev : Bool) (baseUrl : Str) (pages : List Str)
    (fsx : Str → Bool) (url : Str) : Outcome :=
  if url = [] then Outcome.pass
  else
    routeResolve isDev (getBasePath baseUrl) pages fsx
      (normalizePathname (getBasePath baseUrl) (fullPathname url)) (qsSuffix url)

/-- JS `s.includes(pat)`: substring containment. -/
def containsSub (pat : Str) : Str → Bool
  | [] => pat.isPrefixOf []
  | c :: rest => pat.isPrefixOf (c :: rest) || containsSub pat rest

/-- Length of `dropWhile` never exceeds the original length (termination
measure for the slash-collapsing scans). -/
theorem length_dropWhile_le (p : Char → Bool) (l : Str) :
    (l.dropWhile p).length ≤ l.length := by
  induction l with
  | nil => simp
  | cons a t ih =>
    by_cases h : p a
    · simp only [List.dropWhile_cons, h, if_true, List.length_cons]; omega
    · simp [List.dropWhile_cons, h]

/-- Fuel-indexed worker for `collapseSlashes` (structural recursion on the
fuel keeps the function kernel-reducible); with fuel at least the length of
the string the fuel never runs out. -/
def collapseFuel : Nat → Str → Str
  | _, [] => []
  | 0, s => s
  | n + 1, c :: rest =>
    if c ≠ ':' ∧ rest.head? = some '/' then
      c :: '/' :: collapseFuel n (rest.dropWhile (fun x => x = '/'))
    else c :: collapseFuel n rest

/-- JS `s.replace(/([^:])\/+/g, '$1/')`: a left-to-right global scan; any
non-colon character followed by a run of slashes keeps only one slash, and the
scan resumes after the consumed run. -/
def collapseSlashes (s : Str) : Str := collapseFuel s.length s

/-- The fuel is irrelevant as long as it covers the length of the string. -/
theorem collapseFuel_congr :
    ∀ (n m : Nat) (s : Str), s.length ≤ n → s.length ≤ m →
      collapseFuel n s = collapseFuel m s := by
  intro n
  induction n with
  | zero =>
    intro m s hn _
    have : s = [] := List.length_eq_zero.mp (Nat.le_zero.mp hn)
    subst this
    cases m <;> rfl
  | succ n ih =>
    intro m s hn hm
    cases s with
    | nil => cases m <;> rfl
    | cons c rest =>
      cases m with
      | zero => simp at hm
      | succ m =>
        simp only [List.length_cons, Nat.succ_le_succ_iff] at hn hm
        simp only [collapseFuel]
        by_cases h : c ≠ ':' ∧ rest.head? = some '/'
        · rw [if_pos h, if_pos h,
            ih m _ (le_trans (length_dropWhile_le _ _) hn)
              (le_trans (length_dropWhile_le _ _) hm)]
        · rw [if_neg h, if_neg h, ih m rest hn hm]

/-- Unfolding equation of `collapseSlashes` matching the JS scan step. -/
theorem collapseSlashes_cons (c : Char) (rest : Str) :
    collapseSlashes (c :: rest) =
      if c ≠ ':' ∧ rest.head? = some '/' then
        c :: '/' :: collapseSlashes (rest.dropWhile (fun x => x = '/'))
      else c :: collapseSlashes rest := by
  show collapseFuel (rest.length + 1) (c :: rest) = _
  simp only [collapseFuel]
  by_cases h : c ≠ ':' ∧ rest.head? = some '/'
  · rw [if_pos h, if_pos h,
      collapseFuel_congr rest.length _ _ (length_dropWhile_le _ _) le_rfl]
    rfl
  · rw [if_neg h, if_neg h]
    rfl

/-- Fuel-indexed worker for `collapseAllSlashes`. -/
def collapseAllFuel : Nat → Str → Str
  | _, [] => []
  | 0, s => s
  | n + 1, c :: rest =>
    if c = '/' then '/' :: collapseAllFuel n (rest.dropWhile (fun x => x = '/'))
    else c :: collapseAllFuel n rest

/-- JS `s.replace(/\/+/g, '/')`: every run of slashes becomes a single slash. -/
def collapseAllSlashes (s : Str) : Str := collapseAllFuel s.length s

/-- The browser-side whitelist `supportedLanguages` of `src/js/i18n/i18n.ts`,
in source order.  Unlike the server-side list it contains `ru`. -/
def supportedLanguages : List Str :=
  ["en".toList, "fr".toList, "de".toList, "es".toList, "ru".toList,
   "zh".toList, "zh-TW".toList, "vi".toList, "tr".toList, "id".toList,
   "it".toList, "pt".toList]

/-- Alternation order of the language groups hardcoded in the i18n regexes
(`getLanguageFromUrl`, `changeLanguage`, `rewriteLinks`):
`(en|fr|es|de|ru|zh|zh-TW|vi|tr|id|it|pt)`. -/
def i18nRegexLangs : List Str :=
  ["en".toList, "fr".toList, "es".toList, "de".toList, "ru".toList,
   "zh".toList, "zh-TW".toList, "vi".toList, "tr".toList, "id".toList,
   "it".toList, "pt".toList]

/-- One alternative of `changeLanguage`'s strip regex
`^/(...)(\/.*)?$`, tried at `lang`; group 2 carries the leading slash.
As in `matchAlt`, a line terminator after the slash defeats the `(\/.*)`
group and hence (the sub-path being non-empty) the whole alternative. -/
def matchLangStrip (lang path : Str) : Option (Option Str) :=
  if path = '/' :: lang then some none
  else if ('/' :: lang ++ ['/']).isPrefixOf path then
    (if (path.drop (lang.length + 2)).all jsDotOk then
      some (some (path.drop (lang.length + 1)))
    else none)
  else none

/-- First matching alternative of the strip regex, in alternation order. -/
def langStripAux : List Str → Str → Option (Option Str)
  | [], _ => none
  | lang :: rest, path =>
    match matchLangStrip lang path with
    | some r => some r
    | none => langStripAux rest path

/-- `changeLanguage(lang)` of `i18n.ts`, as a pure function of the browser
state it reads: BASE_URL, the current `location` (pathname, search, hash) and
the requested language.  `none` models the guard returning before any effect
(nothing stored, no navigation); `some (stored, url)` models
`localStorage.setItem('i18nextLng', stored)` followed by assigning
`location.href = url`. -/
def changeLanguage (baseUrl lang pathname search hash : Str) :
    Option (Str × Str) :=
  if ¬ supportedLanguages.contains lang then none
  else
    let basePath := stripTrailing '/' baseUrl
    let relativePath0 :=
      if basePath ≠ [] ∧ basePath ≠ ['/'] ∧ basePath.isPrefixOf pathname then
        (if pathname.drop basePath.length = [] then ['/']
         else pathname.drop basePath.length)
      else pathname
    let relativePath :=
      if ['/'].isPrefixOf relativePath0 then relativePath0 else '/' :: relativePath0
    let pagePath0 :=
      match langStripAux i18nRegexLangs relativePath with
      | some (some g2) => if g2 = [] then ['/'] else g2
      | some none => ['/']
      | none => relativePath
    let pagePath :=
      if ['/'].isPrefixOf pagePath0 then pagePath0 else '/' :: pagePath0
    let newRelativePath :=
      if lang = "en".toList then pagePath else '/' :: (lang ++ pagePath)
    let newPath0 :=
      if basePath ≠ [] ∧ basePath ≠ ['/'] then basePath ++ newRelativePath
      else newRelativePath
    some (lang, collapseAllSlashes newPath0 ++ search ++ hash)

/-- The test `^(base)?/(en|fr|es|de|ru|zh|zh-TW|vi|tr|id|it|pt)(/|$)` applied
at one position: the path (after the optional base) is exactly `/lang`, or
starts with `/lang/`. -/
def langPrefixAt (s : Str) : Bool :=
  i18nRegexLangs.any (fun l => s = '/' :: l || ('/' :: l ++ ['/']).isPrefixOf s)

/-- `langPrefixRegex.test(href)` of `rewriteLinks`: the optional base group is
tried both ways (the base path being regex-escaped, it matches literally). -/
def langPrefixTest (basePath href : Str) : Bool :=
  (basePath.isPrefixOf href && langPrefixAt (href.drop basePath.length)) ||
    langPrefixAt href

/-- The skip conditions of `rewriteLinks` for one anchor: falsy href, external
or protocol-relative URLs, `mailto:`, `tel:`, fragment-only, `javascript:`
links, asset paths, and hrefs already carrying a recognized language prefix. -/
def isSkippedHref (basePath href : Str) : Bool :=
  href.isEmpty || "http".toList.isPrefixOf href ||
  "//".toList.isPrefixOf href || "mailto:".toList.isPrefixOf href ||
  "tel:".toList.isPrefixOf href || "#".toList.isPrefixOf href ||
  "javascript:".toList.isPrefixOf href ||
  containsSub "/assets/".toList href || langPrefixTest basePath href

/-- The per-anchor rewrite of `rewriteLinks`: skipped hrefs are untouched;
otherwise the active language segment is injected (after the base path for
base-relative and absolute hrefs, bare for relative ones) and duplicate
slashes not preceded by a colon are collapsed. -/
def rewriteOneHref (basePath lang href : Str) : Str :=
  if isSkippedHref basePath href then href
  else
    let newHref :=
      if basePath ≠ [] ∧ basePath ≠ ['/'] ∧ basePath.isPrefixOf href then
        basePath ++ '/' :: (lang ++ href.drop basePath.length)
      else if ['/'].isPrefixOf href then
        (if basePath ≠ [] ∧ basePath ≠ ['/'] then basePath ++ '/' :: (lang ++ href)
         else '/' :: (lang ++ href))
      else if href = [] ∨ href = "index.html".toList then
        (if basePath ≠ [] ∧ basePath ≠ ['/'] then basePath ++ '/' :: (lang ++ ['/'])
         else '/' :: (lang ++ ['/']))
      else lang ++ '/' :: href
    collapseSlashes newHref

/-- One run of `rewriteLinks()` over the hrefs of the page's anchors, as a
function of BASE_URL and the detected active language (`getLanguageFromUrl`):
a no-op for `en`, otherwise the per-anchor rewrite mapped over every href. -/
def rewriteLinks (baseUrl currentLang : Str) (hrefs : List Str) : List Str :=
  if currentLang = "en".toList then hrefs
  else hrefs.map (rewriteOneHref (stripTrailing '/' baseUrl) currentLang)

/-- A browser `File` as the PDF→FB2 tool page reads it: MIME type and name. -/
structure JFile where
  ftype : Str
  fname : Str
deriving DecidableEq, Repr

/-- The PDF filter of `handleFiles`: MIME type `application/pdf`, or a name
ending case-insensitively in `.pdf` (JS `toLowerCase` modelled by
`Char.toLower`; the two agree on ASCII, which is all `.pdf` needs). -/
def isPdfFile (f : JFile) : Bool :=
  f.ftype = "application/pdf".toList ||
    ".pdf".toList.isSuffixOf (f.fname.map Char.toLower)

/-- `handleFiles(newFiles)` of the PDF→FB2 tool page: returns the new module
state `files` and whether the invalid-files alert was shown. -/
def handleFiles (files newFiles : List JFile) : List JFile × Bool :=
  let validFiles := newFiles.filter isPdfFile
  (if 0 < validFiles.length then files ++ validFiles else files,
   decide (validFiles.length < newFiles.length))

/-! ### Helper lemmas -/

/-- `takeWhile` walks through a block whose characters all satisfy `p`. -/
theorem takeWhile_append_of_all (p : Char → Bool) (l₁ l₂ : Str)
    (h : ∀ c ∈ l₁, p c = true) :
    (l₁ ++ l₂).takeWhile p = l₁ ++ l₂.takeWhile p := by
  induction l₁ with
  | nil => simp
  | cons a t ih =>
    simp only [List.cons_append, List.takeWhile_cons, h a (by simp),
      ih (fun c hc => h c (by simp [hc])), if_true]

/-- `takeWhile` keeps a list all of whose characters satisfy `p`. -/
theorem takeWhile_eq_self_of_all (p : Char → Bool) (l : Str)
    (h : ∀ c ∈ l, p c = true) : l.takeWhile p = l := by
  induction l with
  | nil => rfl
  | cons a t ih =>
    simp only [List.takeWhile_cons, h a (by simp),
      ih (fun c hc => h c (by simp [hc])), if_true]

/-- The alternative for `lang` itself always matches `/lang/r` (when `r` has
no line terminator) with remainder exactly `r`. -/
theorem matchAlt_self (L r : Str) (hr : r.all jsDotOk = true) :
    matchAlt L ('/' :: (L ++ '/' :: r)) = some (some r) := by
  have hpath : ('/' :: (L ++ '/' :: r)) = ('/' :: L ++ ['/']) ++ r := by simp
  have hne : ('/' :: (L ++ '/' :: r)) ≠ '/' :: L := by
    intro h
    have := congrArg List.length h
    simp at this
  have hpre : ('/' :: L ++ ['/']).isPrefixOf ('/' :: (L ++ '/' :: r)) = true := by
    rw [List.isPrefixOf_iff_prefix, hpath]
    exact List.prefix_append _ _
  have hdrop : ('/' :: (L ++ '/' :: r)).drop (L.length + 2) = r := by
    rw [hpath]
    have hlen : ('/' :: L ++ ['/']).length = L.length + 2 := by simp
    rw [← hlen, List.drop_left]
  simp only [matchAlt]
  rw [if_neg hne, if_pos hpre, hdrop, hr]
  simp

/-- An alternative that does not match is skipped by the alternation. -/
theorem langMatchAux_cons_none (l : List Str) (lang path : Str)
    (h : matchAlt lang path = none) :
    langMatchAux (lang :: l) path = langMatchAux l path := by
  simp [langMatchAux, h]

/-- An alternative that matches wins immediately. -/
theorem langMatchAux_cons_some (l : List Str) (lang path : Str) (ro : Option Str)
    (h : matchAlt lang path = some ro) :
    langMatchAux (lang :: l) path = some (lang, ro) := by
  simp [langMatchAux, h]

/-- `LANG_REGEX` on `/L/r` for any configured language `L` extracts exactly
`(L, r)` whenever `r` is free of line terminators: no earlier alternative of
the alternation can fire (the language codes mismatch within their first
characters), so leftmost-alternative semantics select `L` itself. -/
theorem langMatch_self (L : Str) (hL : L ∈ SUPPORTED_LANGUAGES) (r : Str)
    (hr : r.all jsDotOk = true) :
    langMatch ('/' :: (L ++ '/' :: r)) = some (L, some r) := by
  simp only [SUPPORTED_LANGUAGES, List.mem_cons, List.not_mem_nil, or_false] at hL
  rcases hL with rfl | rfl | rfl | rfl | rfl | rfl | rfl | rfl | rfl | rfl | rfl <;>
    simp [langMatch, SUPPORTED_LANGUAGES, langMatchAux, matchAlt, hr]

/-- Structural facts about every configured language code, obtained by
evaluation: non-empty, free of `/`, `?`, `:` and line terminators, and not
slash-terminated. -/
theorem lang_facts : ∀ L ∈ SUPPORTED_LANGUAGES, L ≠ [] ∧ (∀ c ∈ L, c ≠ '/') ∧
    (∀ c ∈ L, c ≠ '?') ∧ L.getLast? ≠ some '/' ∧ L.all jsDotOk = true := by
  decide

/-- `LANG_REGEX` on the bare path `/L`: the language matches, group 2 is
undefined. -/
theorem langMatch_bare : ∀ L ∈ SUPPORTED_LANGUAGES,
    langMatch ('/' :: L) = some (L, none) ∧ ('/' :: L).getLast? ≠ some '/' := by
  decide

/-- Structural facts about every known page name, obtained by evaluation. -/
theorem wf_PAGES : ∀ P ∈ PAGES, P ≠ [] ∧ (∀ c ∈ P, c ≠ '/') ∧
    (∀ c ∈ P, c ≠ '?') ∧ ".html".toList.isSuffixOf P = false ∧
    P.all jsDotOk = true := by
  decide

/-- Shape inversion: a successful alternative pins the path's head. -/
theorem matchAlt_some_shape (lang path : Str) (ro : Option Str)
    (h : matchAlt lang path = some ro) :
    path = '/' :: lang ∨ ∃ t, path = '/' :: lang ++ '/' :: t := by
  unfold matchAlt at h
  split at h
  · rename_i heq
    exact Or.inl heq
  · split at h
    · rename_i hpre
      obtain ⟨t, ht⟩ := List.isPrefixOf_iff_prefix.mp hpre
      refine Or.inr ⟨t, ?_⟩
      rw [← ht]
      simp
    · simp at h

/-- Alternation inversion: a match names some alternative of the list. -/
theorem langMatchAux_some_mem (l : List Str) (path L : Str) (ro : Option Str)
    (h : langMatchAux l path = some (L, ro)) :
    L ∈ l ∧ matchAlt L path = some ro := by
  induction l with
  | nil => simp [langMatchAux] at h
  | cons lang rest ih =>
    simp only [langMatchAux] at h
    cases hma : matchAlt lang path with
    | some r =>
      simp only [hma, Option.some.injEq, Prod.mk.injEq] at h
      obtain ⟨h1, h2⟩ := h
      subst h1
      subst h2
      exact ⟨List.mem_cons_self _ _, hma⟩
    | none =>
      simp only [hma] at h
      obtain ⟨hm, he⟩ := ih h
      exact ⟨List.mem_cons_of_mem _ hm, he⟩

/-- First path segment after the leading slash. -/
def firstSegment (pathname : Str) : Str :=
  (pathname.drop 1).takeWhile (fun c => c ≠ '/')

/-- A successful `LANG_REGEX` match forces the first segment of the path to be
the matched configured language. -/
theorem langMatch_firstSegment (path L : Str) (ro : Option Str)
    (h : langMatch path = some (L, ro)) :
    L ∈ SUPPORTED_LANGUAGES ∧ firstSegment path = L := by
  obtain ⟨hm, hma⟩ := langMatchAux_some_mem _ _ _ _ h
  refine ⟨hm, ?_⟩
  obtain ⟨-, hslash, -, -, -⟩ := lang_facts L hm
  rcases matchAlt_some_shape _ _ _ hma with hsh | ⟨t, hsh⟩ <;> subst hsh
  · unfold firstSegment
    simp only [List.drop_succ_cons, List.drop_zero]
    exact takeWhile_eq_self_of_all _ _ (fun c hc => decide_eq_true (hslash c hc))
  · unfold firstSegment
    simp only [List.cons_append, List.drop_succ_cons, List.drop_zero]
    rw [takeWhile_append_of_all _ _ _ (fun c hc => decide_eq_true (hslash c hc))]
    simp [List.takeWhile_cons]

/-- Contrapositive: a path whose first segment is no configured language does
not match `LANG_REGEX` at all. -/
theorem langMatch_none_of_firstSegment (path : Str)
    (h : firstSegment path ∉ SUPPORTED_LANGUAGES) : langMatch path = none := by
  cases hlm : langMatch path with
  | none => rfl
  | some v =>
    obtain ⟨L, ro⟩ := v
    obtain ⟨hm, hseg⟩ := langMatch_firstSegment _ _ _ hlm
    exact absurd (hseg ▸ hm) h

/-- Core production routing fact: a matched language plus a known, well-formed
page name resolves to the language-specific compiled page when the probe
succeeds and to the flat compiled page otherwise. -/
theorem routeResolve_prod_known_page (basePath : Str) (pages : List Str)
    (fsx : Str → Bool) (L P qs : Str) (hL : L ∈ SUPPORTED_LANGUAGES)
    (hmem : pages.contains P = true) (hPne : P ≠ [])
    (hPslash : ∀ c ∈ P, c ≠ '/') (hPhtml : ".html".toList.isSuffixOf P = false)
    (hPdot : P.all jsDotOk = true) :
    routeResolve false basePath pages fsx ('/' :: (L ++ '/' :: P)) qs =
      if fsx (distFile L (P ++ ".html".toList)) then
        Outcome.rewrite ('/' :: (L ++ '/' :: (P ++ ".html".toList)) ++ qs)
      else Outcome.rewrite ('/' :: (P ++ ".html".toList) ++ qs) := by
  have hlm := langMatch_self L hL P hPdot
  have hP1 : ¬ (P = [] ∧ ¬ ('/' :: (L ++ '/' :: P)).getLast? = some '/') := by
    intro hcon
    exact hPne hcon.1
  have hP2 : ¬ (P = [] ∨ P = ['/']) := by
    rintro (rfl | rfl)
    · exact hPne rfl
    · exact hPslash '/' (by simp) rfl
  have hstrip : stripTrailing '/' P = P := by
    unfold stripTrailing
    rw [if_neg]
    intro hlast
    exact hPslash '/' (List.mem_of_mem_getLast? (by simp [hlast])) rfl
  have hclean : cleanPathOf P = P := by
    unfold cleanPathOf
    rw [hstrip]
    unfold stripSuffixOnce
    rw [if_neg]
    intro hcon
    rw [hcon] at hPhtml
    exact absurd hPhtml (by simp)
  have hpage : pageNameOf P = P :=
    takeWhile_eq_self_of_all _ _ (fun c hc => decide_eq_true (hPslash c hc))
  simp only [routeResolve, hlm, Option.getD_some]
  rw [if_neg hP1, if_neg hP2]
  simp only [hclean, hpage]
  rw [if_pos ⟨hPne, hmem⟩, if_neg Bool.false_ne_true]

/-! ### Claim theorems -/

/-- C1: for every configured language code `L` and every known page name `P`,
resolving the request path `/L/P` in the production (preview) middleware
rewrites the request URL to the language-specific compiled file `/L/P.html`
when that file exists on disk under `dist/L/`, and otherwise to the
non-localized compiled `/P.html`, in both cases reattaching the query string
when one was present. -/
theorem C1_prod_language_page_resolution (L P q : Str) (fsx : Str → Bool)
    (hL : L ∈ SUPPORTED_LANGUAGES) (hP : P ∈ PAGES)
    (hq : q = [] ∨ q.head? = some '?') :
    createLanguageMiddleware false "/".toList PAGES fsx
        ('/' :: (L ++ '/' :: P) ++ q) =
      if fsx (distFile L (P ++ ".html".toList)) then
        Outcome.rewrite ('/' :: (L ++ '/' :: (P ++ ".html".toList)) ++
          qsSuffix ('/' :: (L ++ '/' :: P) ++ q))
      else
        Outcome.rewrite ('/' :: (P ++ ".html".toList) ++
          qsSuffix ('/' :: (L ++ '/' :: P) ++ q)) := by
  obtain ⟨hLne, hLslash, hLq, hLlast, hLdot⟩ := lang_facts L hL
  obtain ⟨hPne, hPslash, hPq, hPhtml, hPdot⟩ := wf_PAGES P hP
  have hu : ('/' :: (L ++ '/' :: P) ++ q) ≠ [] := by simp
  have hfp : fullPathname ('/' :: (L ++ '/' :: P) ++ q) =
      '/' :: (L ++ '/' :: P) := by
    unfold fullPathname
    rw [takeWhile_append_of_all]
    · rw [show q.takeWhile (fun c => decide (c ≠ '?')) = [] from ?_]
      · simp
      · rcases hq with rfl | hq'
        · rfl
        · cases q with
          | nil => rfl
          | cons c t =>
            simp only [List.head?_cons, Option.some.injEq] at hq'
            subst hq'
            simp [List.takeWhile_cons]
    · intro c hc
      simp only [List.mem_cons, List.mem_append] at hc
      rcases hc with rfl | hc | rfl | hc
      · decide
      · exact decide_eq_true (hLq c hc)
      · decide
      · exact decide_eq_true (hPq c hc)
  have hnorm : normalizePathname [] ('/' :: (L ++ '/' :: P)) =
      '/' :: (L ++ '/' :: P) := by
    unfold normalizePathname
    simp [List.isPrefixOf]
  unfold createLanguageMiddleware
  rw [if_neg hu, show getBasePath "/".toList = ([] : Str) from rfl, hfp, hnorm]
  exact routeResolve_prod_known_page [] PAGES fsx L P _ hL
    (List.elem_eq_true_of_mem hP) hPne hPslash hPhtml hPdot

/-- Witness for C1 at `L = de`, `P = merge-pdf`, query `x=1`, localized file
present on disk. -/
theorem C1_prod_language_page_resolution_witness :
    createLanguageMiddleware false "/".toList PAGES (fun _ => true)
        "/de/merge-pdf?x=1".toList =
      Outcome.rewrite "/de/merge-pdf.html?x=1".toList :=
  C1_prod_language_page_resolution "de".toList "merge-pdf".toList
    "?x=1".toList (fun _ => true) (by decide) (by decide) (by decide)

/-- C2: a request whose normalized path is exactly `/L` for a configured
language `L` (empty sub-path, no trailing slash) is answered with a 302
redirect whose `Location` is `/L/`, prefixed by the configured base path when
there is one, the original query string preserved; the request is not
forwarded to `next()` (the outcome is a `redirect`, not a `rewrite` or
`pass`). -/
theorem C2_bare_language_redirect (isDev : Bool) (baseUrl : Str)
    (pages : List Str) (fsx : Str → Bool) (u L : Str)
    (hL : L ∈ SUPPORTED_LANGUAGES) (hu : u ≠ [])
    (hnorm : normalizePathname (getBasePath baseUrl) (fullPathname u) =
      '/' :: L) :
    createLanguageMiddleware isDev baseUrl pages fsx u =
      Outcome.redirect
        ((if getBasePath baseUrl ≠ [] then
            getBasePath baseUrl ++ '/' :: (L ++ ['/'])
          else '/' :: (L ++ ['/'])) ++ qsSuffix u) := by
  obtain ⟨hm, hlast⟩ := langMatch_bare L hL
  unfold createLanguageMiddleware
  rw [if_neg hu, hnorm]
  simp only [routeResolve, hm, Option.getD_none]
  rw [if_pos ⟨trivial, hlast⟩]

/-- Witness for C2: the spec scenario `/fr` (with a query string) under the
default base path redirects to `/fr/?a=1`. -/
theorem C2_bare_language_redirect_witness :
    createLanguageMiddleware false "/".toList PAGES (fun _ => true)
        "/fr?a=1".toList =
      Outcome.redirect "/fr/?a=1".toList :=
  C2_bare_language_redirect false "/".toList PAGES (fun _ => true)
    "/fr?a=1".toList "fr".toList (by decide) (by decide) (by decide)

/-- C5 counterexample: with base path `/pdf/` configured and the localized
compiled file present, the production middleware rewrites
`/pdf/de/merge-pdf` to `/de/merge-pdf.html` — not to the base-path-prefixed
`/pdf/de/merge-pdf.html` the claim asserts. -/
theorem C5_base_path_scenario_cex :
    createLanguageMiddleware false "/pdf/".toList PAGES (fun _ => true)
        "/pdf/de/merge-pdf".toList =
      Outcome.rewrite "/de/merge-pdf.html".toList ∧
    Outcome.rewrite "/de/merge-pdf.html".toList ≠
      Outcome.rewrite "/pdf/de/merge-pdf.html".toList := by
  decide

/-- C5 (amended): with base path `/pdf/` configured, the production request
`/pdf/de/merge-pdf` is stripped to `/de/merge-pdf`, matched as language `de`
with known page name `merge-pdf`, and its URL is rewritten to
`/de/merge-pdf.html` when `dist/de/merge-pdf.html` exists, else to
`/merge-pdf.html`: the rewritten path does not include the base-path prefix
(only the redirect branch re-attaches the base path). -/
theorem C5_base_path_scenario (fsx : Str → Bool) :
    createLanguageMiddleware false "/pdf/".toList PAGES fsx
        "/pdf/de/merge-pdf".toList =
      if fsx "dist/de/merge-pdf.html".toList then
        Outcome.rewrite "/de/merge-pdf.html".toList
      else Outcome.rewrite "/merge-pdf.html".toList :=
  routeResolve_prod_known_page "/pdf".toList PAGES fsx "de".toList
    "merge-pdf".toList [] (by decide) (by decide) (by decide) (by decide)
    (by decide) (by decide)

/-- Witness for C5 at a concrete filesystem state (localized copy absent). -/
theorem C5_base_path_scenario_witness :
    createLanguageMiddleware false "/pdf/".toList PAGES (fun _ => false)
        "/pdf/de/merge-pdf".toList =
      Outcome.rewrite "/merge-pdf.html".toList :=
  C5_base_path_scenario (fun _ => false)

/-- C6: a request whose first path segment (after base-path stripping and
slash normalization) is not in the configured language list is handled
exactly by the no-language-prefix fallback `devHtmlFallback`; no
language-based rewrite or redirect occurs, and the only possible rewrite is
the dev-only rule sending a known page's `.html` URL (outside `/src/`) to its
`/src/pages/` source file — otherwise the request passes through. -/
theorem C6_unknown_language_passthrough (isDev : Bool) (baseUrl : Str)
    (pages : List Str) (fsx : Str → Bool) (u : Str) (hu : u ≠ [])
    (hseg : firstSegment (normalizePathname (getBasePath baseUrl)
      (fullPathname u)) ∉ SUPPORTED_LANGUAGES) :
    createLanguageMiddleware isDev baseUrl pages fsx u =
      devHtmlFallback isDev pages fsx
        (normalizePathname (getBasePath baseUrl) (fullPathname u))
        (qsSuffix u) ∧
    (createLanguageMiddleware isDev baseUrl pages fsx u = Outcome.pass ∨
      ∃ p, isDev = true ∧ pages.contains p = true ∧
        createLanguageMiddleware isDev baseUrl pages fsx u =
          Outcome.rewrite ("/src/pages/".toList ++ p ++ ".html".toList ++
            qsSuffix u)) := by
  have hnone := langMatch_none_of_firstSegment _ hseg
  have hmain : createLanguageMiddleware isDev baseUrl pages fsx u =
      devHtmlFallback isDev pages fsx
        (normalizePathname (getBasePath baseUrl) (fullPathname u))
        (qsSuffix u) := by
    unfold createLanguageMiddleware
    rw [if_neg hu]
    simp only [routeResolve, hnone]
  refine ⟨hmain, ?_⟩
  rw [hmain]
  unfold devHtmlFallback
  split
  · rename_i hcond
    obtain ⟨hdev, -, -⟩ := hcond
    by_cases hc : pages.contains (removeFirst ".html".toList
        ((normalizePathname (getBasePath baseUrl) (fullPathname u)).drop 1)) = true
    · by_cases hf : fsx (srcPagesFile (removeFirst ".html".toList
          ((normalizePathname (getBasePath baseUrl) (fullPathname u)).drop 1) ++
          ".html".toList)) = true
      · refine Or.inr ⟨_, hdev, hc, ?_⟩
        show (if pages.contains _ = true then _ else _) = _
        rw [if_pos hc, if_pos hf]
      · refine Or.inl ?_
        show (if pages.contains _ = true then _ else _) = _
        rw [if_pos hc, if_neg hf]
    · refine Or.inl ?_
      show (if pages.contains _ = true then _ else _) = _
      rw [if_neg hc]
  · exact Or.inl rfl

/-- Witness for C6: the spec scenario `/xx/merge-pdf` with unsupported `xx`. -/
theorem C6_unknown_language_passthrough_witness :
    createLanguageMiddleware false "/".toList PAGES (fun _ => false)
        "/xx/merge-pdf".toList =
      devHtmlFallback false PAGES (fun _ => false)
        (normalizePathname (getBasePath "/".toList)
          (fullPathname "/xx/merge-pdf".toList))
        (qsSuffix "/xx/merge-pdf".toList) ∧
    (createLanguageMiddleware false "/".toList PAGES (fun _ => false)
        "/xx/merge-pdf".toList = Outcome.pass ∨
      ∃ p, false = true ∧ PAGES.contains p = true ∧
        createLanguageMiddleware false "/".toList PAGES (fun _ => false)
          "/xx/merge-pdf".toList =
          Outcome.rewrite ("/src/pages/".toList ++ p ++ ".html".toList ++
            qsSuffix "/xx/merge-pdf".toList)) :=
  C6_unknown_language_passthrough false "/".toList PAGES (fun _ => false)
    "/xx/merge-pdf".toList (by decide) (by decide)

/-- C8: when the language matched but the cleaned sub-path (trailing slash
and trailing `.html` stripped) has a first segment that is not a known page
name and the cleaned sub-path contains a `.`, the request's URL field is left
completely unmodified and the request is forwarded (`Outcome.pass` models
`next()` with `req.url` untouched). -/
theorem C8_dotted_asset_passthrough (isDev : Bool) (baseUrl : Str)
    (pages : List Str) (fsx : Str → Bool) (u lang : Str) (ro : Option Str)
    (hu : u ≠ [])
    (hm : langMatch (normalizePathname (getBasePath baseUrl)
      (fullPathname u)) = some (lang, ro))
    (hunknown : pages.contains (pageNameOf (cleanPathOf (ro.getD []))) = false)
    (hdot : (cleanPathOf (ro.getD [])).contains '.' = true) :
    createLanguageMiddleware isDev baseUrl pages fsx u = Outcome.pass := by
  have hrne : ro.getD [] ≠ [] := by
    intro he
    rw [he] at hdot
    simp [cleanPathOf, stripTrailing, stripSuffixOnce] at hdot
  have hrslash : ro.getD [] ≠ ['/'] := by
    intro he
    rw [he] at hdot
    simp [cleanPathOf, stripTrailing, stripSuffixOnce] at hdot
  unfold createLanguageMiddleware
  rw [if_neg hu]
  simp only [routeResolve, hm]
  rw [if_neg (fun hc => hrne hc.1),
    if_neg (fun hc => hc.elim hrne hrslash),
    if_neg (fun hc => by rw [hunknown] at hc; exact absurd hc.2 (by simp)),
    if_neg (fun hc => hc hdot)]

/-- Witness for C8: a static-asset request `/de/logo.png` passes through. -/
theorem C8_dotted_asset_passthrough_witness :
    createLanguageMiddleware false "/".toList PAGES (fun _ => true)
        "/de/logo.png".toList = Outcome.pass :=
  C8_dotted_asset_passthrough false "/".toList PAGES (fun _ => true)
    "/de/logo.png".toList "de".toList (some "logo.png".toList) (by decide)
    (by decide) (by decide) (by decide)

/-- C4 counterexample: a remainder containing a line terminator defeats the
anchored `LANG_REGEX` entirely (`.` in an unflagged JS regex does not match
line terminators), so `/de/` followed by a newline extracts nothing — not
`(de, "\n")` as the claim, quantifying over every remainder, requires. -/
theorem C4_matcher_cex :
    langMatch ("/de/".toList ++ ['\n']) = none ∧
    langMatch ("/de/".toList ++ ['\n']) ≠
      some ("de".toList, some ['\n']) := by
  decide

/-- C4 (amended): for every configured language code `L` (including the
overlapping pair `zh` / `zh-TW`) and every remainder `r` free of JS line
terminators, the Language Matcher on `/L/r` extracts exactly language `L` and
remainder `r`, and on `/L` extracts `L` with an undefined remainder; matching
never truncates `zh-TW` to `zh`.  A remainder containing a line terminator
makes the whole regex fail to match instead. -/
theorem C4_matcher_extraction (L : Str) (hL : L ∈ SUPPORTED_LANGUAGES) :
    (∀ r : Str, r.all jsDotOk = true →
      langMatch ('/' :: (L ++ '/' :: r)) = some (L, some r)) ∧
    langMatch ('/' :: L) = some (L, none) :=
  ⟨fun r hr => langMatch_self L hL r hr, (langMatch_bare L hL).1⟩

/-- Witness for C4 at the overlapping pair: `/zh-TW/x` yields language
`zh-TW` (not a truncation to `zh`) with remainder `x`; `/zh` yields `zh`. -/
theorem C4_matcher_extraction_witness :
    langMatch "/zh-TW/x".toList = some ("zh-TW".toList, some "x".toList) ∧
    langMatch "/zh".toList = some ("zh".toList, none) :=
  ⟨(C4_matcher_extraction "zh-TW".toList (by decide)).1 "x".toList (by decide),
   (C4_matcher_extraction "zh".toList (by decide)).2⟩

/-- C7 counterexample: the path segment `ru` is recognized as a language
prefix by the browser-side link rewriter's test but not by the server
middleware's `LANG_REGEX`. -/
theorem C7_whitelists_cex :
    langPrefixTest [] "/ru/about".toList = true ∧
    langMatch "/ru/about".toList = none := by
  decide

/-- C7 (amended): the browser-side whitelist is a strict superset of the
server-side one — it is exactly the server list plus `ru` — and the
alternation hardcoded in the i18n regexes covers exactly the browser-side
list.  Hence every segment the server recognizes the browser recognizes, but
`ru` is recognized only on the browser side. -/
theorem C7_whitelists_superset :
    (∀ l : Str, l ∈ supportedLanguages ↔
      (l ∈ SUPPORTED_LANGUAGES ∨ l = "ru".toList)) ∧
    (∀ l : Str, l ∈ i18nRegexLangs ↔ l ∈ supportedLanguages) := by
  constructor
  · intro l
    constructor
    · intro h
      simp only [supportedLanguages, List.mem_cons, List.not_mem_nil,
        or_false] at h
      simp only [SUPPORTED_LANGUAGES, List.mem_cons, List.not_mem_nil,
        or_false]
      tauto
    · intro h
      simp only [SUPPORTED_LANGUAGES, List.mem_cons, List.not_mem_nil,
        or_false] at h
      simp only [supportedLanguages, List.mem_cons, List.not_mem_nil,
        or_false]
      tauto
  · intro l
    constructor
    · intro h
      simp only [i18nRegexLangs, List.mem_cons, List.not_mem_nil,
        or_false] at h
      simp only [supportedLanguages, List.mem_cons, List.not_mem_nil,
        or_false]
      tauto
    · intro h
      simp only [supportedLanguages, List.mem_cons, List.not_mem_nil,
        or_false] at h
      simp only [i18nRegexLangs, List.mem_cons, List.not_mem_nil,
        or_false]
      tauto

/-- Witness for C7: `ru` through the first equivalence, `de` through the
second. -/
theorem C7_whitelists_superset_witness :
    ("ru".toList ∈ supportedLanguages ↔
      ("ru".toList ∈ SUPPORTED_LANGUAGES ∨ "ru".toList = "ru".toList)) ∧
    ("de".toList ∈ i18nRegexLangs ↔ "de".toList ∈ supportedLanguages) :=
  ⟨C7_whitelists_superset.1 "ru".toList, C7_whitelists_superset.2 "de".toList⟩

/-- C9: calling `changeLanguage` with a language code not in the supported
list is a complete no-op: the guard returns before the `localStorage` write
and before the `location.href` assignment, so nothing is stored and no
navigation happens (result `none`). -/
theorem C9_changeLanguage_guard (baseUrl lang pathname search hash : Str)
    (h : lang ∉ supportedLanguages) :
    changeLanguage baseUrl lang pathname search hash = none := by
  unfold changeLanguage
  rw [if_pos (fun hc => h (List.elem_iff.mp hc))]

/-- Witness for C9: the unsupported code `xx` changes nothing. -/
theorem C9_changeLanguage_guard_witness :
    changeLanguage "/".toList "xx".toList "/de/tools".toList [] [] = none :=
  C9_changeLanguage_guard "/".toList "xx".toList "/de/tools".toList [] []
    (by decide)

/-- C10: the tool page's file list is append-only and all-PDF: `handleFiles`
appends exactly the incoming files whose MIME type is `application/pdf` or
whose lowercased name ends in `.pdf`, never removes previously accepted
files, shows the alert exactly when at least one incoming file was skipped,
and preserves the all-PDF invariant of the list. -/
theorem C10_handleFiles_append_filter (files newFiles : List JFile) :
    (handleFiles files newFiles).1 = files ++ newFiles.filter isPdfFile ∧
    ((handleFiles files newFiles).2 = true ↔
      ∃ f ∈ newFiles, isPdfFile f = false) ∧
    ((∀ f ∈ files, isPdfFile f = true) →
      ∀ f ∈ (handleFiles files newFiles).1, isPdfFile f = true) := by
  have h1 : (handleFiles files newFiles).1 =
      files ++ newFiles.filter isPdfFile := by
    show (if 0 < (newFiles.filter isPdfFile).length then
        files ++ newFiles.filter isPdfFile else files) =
      files ++ newFiles.filter isPdfFile
    split
    · rfl
    · rename_i hlen
      have hnil : newFiles.filter isPdfFile = [] := by
        cases hf : newFiles.filter isPdfFile with
        | nil => rfl
        | cons a t =>
          rw [hf] at hlen
          simp at hlen
      rw [hnil, List.append_nil]
  refine ⟨h1, ?_, ?_⟩
  · show decide ((newFiles.filter isPdfFile).length < newFiles.length) =
      true ↔ _
    rw [decide_eq_true_eq, List.length_filter_lt_length_iff_exists]
    constructor
    · rintro ⟨x, hx, hpx⟩
      exact ⟨x, hx, by simpa using hpx⟩
    · rintro ⟨x, hx, hpx⟩
      exact ⟨x, hx, by simp [hpx]⟩
  · intro hall f hf
    rw [h1] at hf
    rcases List.mem_append.mp hf with hf | hf
    · exact hall f hf
    · exact (List.mem_filter.mp hf).2

/-- Witness for C10: one PDF and one text file — the PDF is appended, the
text file is skipped, the alert fires. -/
theorem C10_handleFiles_append_filter_witness :
    (handleFiles [] [⟨"application/pdf".toList, "a.pdf".toList⟩,
        ⟨"text/plain".toList, "b.txt".toList⟩]).1 =
      [] ++ [⟨"application/pdf".toList, "a.pdf".toList⟩,
        ⟨"text/plain".toList, "b.txt".toList⟩].filter isPdfFile ∧
    ((handleFiles [] [⟨"application/pdf".toList, "a.pdf".toList⟩,
        ⟨"text/plain".toList, "b.txt".toList⟩]).2 = true ↔
      ∃ f ∈ [⟨"application/pdf".toList, "a.pdf".toList⟩,
        ⟨"text/plain".toList, "b.txt".toList⟩], isPdfFile f = false) ∧
    ((∀ f ∈ ([] : List JFile), isPdfFile f = true) →
      ∀ f ∈ (handleFiles [] [⟨"application/pdf".toList, "a.pdf".toList⟩,
        ⟨"text/plain".toList, "b.txt".toList⟩]).1, isPdfFile f = true) :=
  C10_handleFiles_append_filter [] [⟨"application/pdf".toList, "a.pdf".toList⟩,
    ⟨"text/plain".toList, "b.txt".toList⟩]

/-- Structural facts about every browser-side language code, by evaluation:
non-empty, free of colons and slashes, and present in the regex alternation. -/
theorem client_lang_facts : ∀ l ∈ supportedLanguages,
    l ≠ [] ∧ (∀ c ∈ l, c ≠ ':' ∧ c ≠ '/') ∧ l ∈ i18nRegexLangs := by
  decide

/-- The collapse scan walks through a colon- and slash-free block up to the
slash behind it, where it collapses the following run. -/
theorem collapseSlashes_lang_aux (lang t : Str) (h1 : lang ≠ [])
    (h2 : ∀ c ∈ lang, c ≠ ':' ∧ c ≠ '/') :
    collapseSlashes (lang ++ '/' :: t) =
      lang ++ '/' :: collapseSlashes (t.dropWhile (fun x => x = '/')) := by
  induction lang with
  | nil => exact absurd rfl h1
  | cons a rest ih =>
    cases rest with
    | nil =>
      rw [List.cons_append, List.nil_append, collapseSlashes_cons,
        if_pos ⟨(h2 a (by simp)).1, by simp⟩]
      simp [List.dropWhile_cons]
    | cons b rest2 =>
      rw [List.cons_append, collapseSlashes_cons, if_neg ?hneg]
      · rw [ih (by simp) (fun c hc => h2 c (by simp [hc]))]
        simp
      case hneg =>
        intro hcon
        have hb : b ≠ '/' := (h2 b (by simp)).2
        rw [List.cons_append, List.head?_cons] at hcon
        exact hb (Option.some.inj hcon.2)

/-- Collapsing duplicate slashes preserves a freshly injected `/lang/` head. -/
theorem collapseSlashes_lang_head (lang t : Str) (h1 : lang ≠ [])
    (h2 : ∀ c ∈ lang, c ≠ ':' ∧ c ≠ '/') :
    collapseSlashes ('/' :: (lang ++ '/' :: t)) =
      '/' :: lang ++ '/' :: collapseSlashes (t.dropWhile (fun x => x = '/')) := by
  rw [collapseSlashes_cons, if_neg ?hneg]
  · rw [collapseSlashes_lang_aux lang t h1 h2]
    simp
  case hneg =>
    intro hcon
    cases lang with
    | nil => exact h1 rfl
    | cons a rest =>
      have ha : a ≠ '/' := (h2 a (by simp)).2
      rw [List.cons_append, List.head?_cons] at hcon
      exact ha (Option.some.inj hcon.2)

/-- A skipped href is left untouched by the per-anchor rewrite. -/
theorem rewriteOneHref_skip (basePath lang href : Str)
    (h : isSkippedHref basePath href = true) :
    rewriteOneHref basePath lang href = href := by
  unfold rewriteOneHref
  rw [if_pos h]

/-- A string of the shape `/lang/...` is caught by the language-prefix test. -/
theorem langPrefixAt_head (lang X : Str) (hreg : lang ∈ i18nRegexLangs) :
    langPrefixAt ('/' :: lang ++ '/' :: X) = true := by
  unfold langPrefixAt
  rw [List.any_eq_true]
  refine ⟨lang, hreg, ?_⟩
  have hpre : ('/' :: lang ++ ['/']).isPrefixOf ('/' :: lang ++ '/' :: X) =
      true := by
    rw [List.isPrefixOf_iff_prefix]
    exact ⟨X, by simp⟩
  simp [hpre]

/-- Anything the language-prefix test catches is skipped. -/
theorem isSkippedHref_of_langPrefix (basePath s : Str)
    (h : langPrefixAt s = true) : isSkippedHref basePath s = true := by
  unfold isSkippedHref langPrefixTest
  simp [h]

/-- Idempotence of the per-anchor rewrite on skipped, site-absolute and
`index.html` hrefs: one pass leaves them with (or skips them already
carrying) a recognized language prefix, which the second pass skips. -/
theorem rewriteOneHref_idem (lang href : Str)
    (hlang : lang ∈ supportedLanguages)
    (h : isSkippedHref [] href = true ∨ ['/'].isPrefixOf href = true ∨
      href = "index.html".toList) :
    rewriteOneHref [] lang (rewriteOneHref [] lang href) =
      rewriteOneHref [] lang href := by
  obtain ⟨hne, hchars, hreg⟩ := client_lang_facts lang hlang
  by_cases hskip : isSkippedHref [] href = true
  · rw [rewriteOneHref_skip _ _ _ hskip]
    exact rewriteOneHref_skip _ _ _ hskip
  · have honce : ∃ X, rewriteOneHref [] lang href =
        '/' :: lang ++ '/' :: X := by
      rcases h with h | hpre | rfl
      · exact absurd h hskip
      · obtain ⟨t, rfl⟩ : ∃ t, href = '/' :: t := by
          obtain ⟨t, ht⟩ := List.isPrefixOf_iff_prefix.mp hpre
          exact ⟨t, by simpa using ht.symm⟩
        refine ⟨collapseSlashes (t.dropWhile (fun x => x = '/')), ?_⟩
        unfold rewriteOneHref
        rw [if_neg hskip, if_neg (by simp), if_pos (by simp [List.isPrefixOf]),
          if_neg (by simp)]
        exact collapseSlashes_lang_head lang t hne hchars
      · refine ⟨collapseSlashes ([].dropWhile (fun x => x = '/')), ?_⟩
        unfold rewriteOneHref
        rw [if_neg hskip, if_neg (by simp), if_neg (by decide),
          if_pos (by simp), if_neg (by simp)]
        exact collapseSlashes_lang_head lang [] hne hchars
    obtain ⟨X, hX⟩ := honce
    rw [hX]
    exact rewriteOneHref_skip _ _ _
      (isSkippedHref_of_langPrefix _ _ (langPrefixAt_head lang X hreg))

/-- C3 counterexample: the link-rewriting pass is not idempotent on relative
hrefs — a second pass over the rewritten anchor set prepends the active
language again (`x` → `de/x` → `de/de/x`). -/
theorem C3_rewriteLinks_cex :
    rewriteLinks "/".toList "de".toList
        (rewriteLinks "/".toList "de".toList ["x".toList]) =
      ["de/de/x".toList] ∧
    rewriteLinks "/".toList "de".toList ["x".toList] = ["de/x".toList] ∧
    ["de/de/x".toList] ≠ ["de/x".toList] := by
  decide

/-- C3 (amended): under the default base path, the link-rewriting pass is
idempotent on every anchor whose href is skipped (external, fragment, asset,
or already language-prefixed), site-absolute (starting with `/`), or equal to
`index.html` — after one pass those carry a recognized language prefix and
are skipped.  It is not idempotent on other relative hrefs, which gain one
more `<lang>/` prefix per pass (they never start with `/`, so the prefix test
never catches them). -/
theorem C3_rewriteLinks_idempotent_on_absolute (lang : Str)
    (hlang : lang ∈ supportedLanguages) (hrefs : List Str)
    (h : ∀ href ∈ hrefs, isSkippedHref [] href = true ∨
      ['/'].isPrefixOf href = true ∨ href = "index.html".toList) :
    rewriteLinks "/".toList lang (rewriteLinks "/".toList lang hrefs) =
      rewriteLinks "/".toList lang hrefs := by
  unfold rewriteLinks
  by_cases he : lang = "en".toList
  · simp [he]
  · simp only [if_neg he]
    rw [show stripTrailing '/' "/".toList = ([] : Str) from rfl, List.map_map]
    apply List.map_congr_left
    intro href hh
    exact rewriteOneHref_idem lang href hlang (h href hh)

/-- Witness for C3 (amended): a skipped, an absolute and an `index.html`
anchor under language `de` are unchanged by a second pass. -/
theorem C3_rewriteLinks_idempotent_witness :
    rewriteLinks "/".toList "de".toList
        (rewriteLinks "/".toList "de".toList
          ["/tools".toList, "#top".toList, "index.html".toList]) =
      rewriteLinks "/".toList "de".toList
        ["/tools".toList, "#top".toList, "index.html".toList] :=
  C3_rewriteLinks_idempotent_on_absolute "de".toList (by decide)
    ["/tools".toList, "#top".toList, "index.html".toList] (by decide)
